import Mathlib

/-!
Verification of `src/database/src/actions/analysis.rs` (the batch analysis
pipeline and the group aggregator of the rune repository), as a shallow
embedding in Lean 4.

Modelling conventions used throughout this file:
* database identifiers (`i32` file ids) are `Int`;
* floating point values (`f64`) are `ℚ`: the claims under study are about
  which rows contribute to which sums, never about rounding;
* the `media_files` table is a list `fileIds : List Int` of primary keys and
  the `media_analysis` table is represented by the list `existed : List Int`
  of file ids that already own a row (the only column the pipeline reads);
* the outcome of `analysis_file` for a given file is an oracle
  `ok : Int → Bool` (`false` models a decode or extraction error inside the
  spawned task);
* the outcome of the batch transaction number `j` (the inserts plus the
  `txn.commit()`) is an oracle `commitOk : ℕ → Bool`;
* `cancel_token.is_cancelled()` is sampled at the top of the producer loop
  and once per received file in the consumer loop; the two observation
  sequences are the oracles `pcancel` and `ccancel`, indexed by how many
  times the corresponding loop has performed the check.
-/

namespace Rune

/-! ## Keyset pagination (producer side of `analysis_audio_library`)

`media_analysis::Entity::find().select_only().column(FileId).distinct()` gives
the already analysed ids; the cursor is
`media_files::Entity::find().filter(Id.is_not_in(existed_ids)).cursor_by(Id)`,
and each producer iteration runs `cursor.first(batch_size).all(db)` and then
`cursor.after(last_file.id)` (lines 51-104 of analysis.rs). -/

/-- The `WHERE id > after` part of the keyset cursor: no lower bound before
the first `cursor.after` call. -/
def afterP : Option Int → Int → Bool
  | none, _ => true
  | some a, i => decide (a < i)

/-- One `cursor.first(lim).all(db)` query: `WHERE id NOT IN existed AND id >
after ORDER BY id LIMIT lim` against the `media_files` table. -/
def queryPage (fileIds existed : List Int) (after : Option Int) (lim : ℕ) : List Int :=
  (List.insertionSort (· ≤ ·)
      ((fileIds.filter (fun i => decide (i ∉ existed))).filter (afterP after))).take lim

/-- The anti-join `media_files.id NOT IN media_analysis.file_id`, in the
ascending id order the cursor visits it. -/
def unfeaturedSorted (fileIds existed : List Int) : List Int :=
  List.insertionSort (· ≤ ·) (fileIds.filter (fun i => decide (i ∉ existed)))

/-- The producer loop of `analysis_audio_library` (lines 72-108): check the
cancellation token, fetch the next page, stop on an empty page, otherwise send
every file of the page and move the cursor after the last id of the page.
`fuel` bounds the iteration count (the Rust loop terminates because every
non-empty page strictly advances the cursor); every theorem below supplies
fuel larger than the number of pages. The returned list of pages, joined, is
the sequence of files pushed into the bounded hand-off channel. -/
def producerLoop (fileIds existed : List Int) (B : ℕ) (pcancel : ℕ → Bool) :
    ℕ → Option Int → ℕ → List (List Int)
  | 0, _, _ => []
  | fuel + 1, after, it =>
    if pcancel it then []
    else
      let files := queryPage fileIds existed after B
      if files.isEmpty then []
      else
        match files.getLast? with
        | some last => files :: producerLoop fileIds existed B pcancel fuel (some last) (it + 1)
        | none => []

/-! ## Consumer side of `analysis_audio_library` -/

/-- What the consumer async block of `analysis_audio_library` produced by the
time it returned:
* `committed`: one entry per executed `txn.commit()` (lines 142-154), holding
  the file ids whose rows the transaction inserted (the successful results of
  the batch; failed files are only logged);
* `progressEvents`: the arguments of every `progress_callback` invocation, in
  order (lines 157-158 and 175-177);
* `remainingComputed`: the successful results collected by the
  `buffer_unordered` of the remaining-tasks block (lines 162-173) — the code
  only logs the join errors of these tasks and never opens a transaction for
  their results;
* `fatal`: whether the block returned `Err` (an insert or `txn.commit()`
  failure propagated by `?`). -/
structure ConsumerOut where
  committed : List (List Int)
  progressEvents : List (ℕ × ℕ)
  remainingComputed : List Int
  fatal : Bool
deriving DecidableEq

/-- The remaining-tasks block (lines 162-178): if any tasks are pending, await
them all, log the failures, bump `total_processed` by the task count and call
the progress callback once. No database work happens here. -/
def remainingBlock (total tp : ℕ) (ok : Int → Bool) (tasks : List Int) : ConsumerOut :=
  if tasks.isEmpty then ⟨[], [], [], false⟩
  else ⟨[], [(tp + tasks.length, total)], tasks.filter ok, false⟩

/-- The consumer loop (lines 111-181): receive a file, check the cancellation
token (breaking drops the just-received file), spawn its analysis task; once
`batch_size` tasks are pending, await them, open one transaction, insert every
successful result (failures are logged and omitted), commit, bump
`total_processed` by the batch's task count and report progress. An insert or
commit error makes the whole async block return `Err` at once. When the
channel is drained (or after a cancellation break) the remaining-tasks block
runs. Arguments after the queue: pending `tasks`, the cancellation-check
index `ci`, the transaction index `bi`, and `total_processed` `tp`. -/
def consumerLoop (B total : ℕ) (ok : Int → Bool) (commitOk ccancel : ℕ → Bool) :
    List Int → List Int → ℕ → ℕ → ℕ → ConsumerOut
  | [], tasks, _, _, tp => remainingBlock total tp ok tasks
  | f :: rest, tasks, ci, bi, tp =>
    if ccancel ci then remainingBlock total tp ok tasks
    else
      let tasks1 := tasks ++ [f]
      if B ≤ tasks1.length then
        if commitOk bi then
          let out := consumerLoop B total ok commitOk ccancel rest [] (ci + 1) (bi + 1)
            (tp + tasks1.length)
          { out with
            committed := tasks1.filter ok :: out.committed
            progressEvents := (tp + tasks1.length, total) :: out.progressEvents }
        else ⟨[], [], [], true⟩
      else consumerLoop B total ok commitOk ccancel rest tasks1 (ci + 1) bi tp

/-- Outcome of one `analysis_audio_library` run. `panicked` models an abort of
the whole process; `hung` a run that never returns (the `futures::join!` of
line 184 never resolves); `err` is the `Err(DbErr)` early return; `ok`
carries the function's return value `total_tasks` (the unfiltered
`media_files` count snapshot of line 66). -/
inductive RunResult where
  | panicked
  | hung
  | err (out : ConsumerOut)
  | ok (total : ℕ) (out : ConsumerOut)
deriving DecidableEq

/-- `analysis_audio_library` (lines 36-191). `async_channel::bounded`
(line 68) is documented to abort when its capacity argument is zero, so
`batch_size = 0` yields `panicked` before any database work. Otherwise the
producer pages the anti-join cursor and the consumer drains the hand-off
queue; the model sequentialises the two loops through the `queue` list: on
every run in which the consumer's async block returns `Ok` this preserves
every observable (rows inserted, progress calls, returned value), because
the consumer receives exactly the ids the producer sends, in order.

A fatal consumer error does not always surface, though: when the consumer
block exits with `Err` (inserts or `txn.commit()` of transaction `jF`
failing), `rx` — captured by shared reference by the non-`move` consumer
block — is never dropped, so the channel neither closes nor drains. The
consumer has received exactly `(jF + 1) * batch_size` files by then, and the
buffer holds at most `batch_size` more, so the producer can complete at most
`(jF + 2) * batch_size` sends in total; if its stream is longer, the
`tx.send(...).await` of line 94 suspends forever on the full channel and
`futures::join!` never resolves: the run hangs (`hung`) and
`consumer_result?` is never reached. Only when the whole stream fits that
budget does the producer exhaust its cursor, drop `tx` and return, letting
`producer_result?`/`consumer_result?` surface the error (`err`). The count
of transactions committed before the failing one is `out.committed.length`. -/
def analysis_audio_library (fileIds existed : List Int) (batch_size : ℕ)
    (ok : Int → Bool) (commitOk pcancel ccancel : ℕ → Bool) : RunResult :=
  if batch_size = 0 then .panicked
  else
    let total_tasks := fileIds.length
    let queue :=
      (producerLoop fileIds existed batch_size pcancel (fileIds.length + 1) none 0).flatten
    let out := consumerLoop batch_size total_tasks ok commitOk ccancel queue [] 0 0 0
    if out.fatal then
      if queue.length ≤ batch_size * (out.committed.length + 2) then .err out else .hung
    else .ok total_tasks out

/-! ## Group aggregation (`get_centralized_analysis_result`, lines 268-515)

The `media_analysis` entity row: every analysis column is nullable (`Option`
in the sea-orm model). The twelve `chroma~N`, twenty-four
`perceptual_loudness~N` and thirteen `mfcc~N` columns generated by the
`seq!` macros are represented uniformly as `Fin`-indexed families of
independent nullable values. -/

structure MediaAnalysisRow where
  rms : Option ℚ
  zcr : Option ℚ
  energy : Option ℚ
  spectral_centroid : Option ℚ
  spectral_flatness : Option ℚ
  spectral_slope : Option ℚ
  spectral_rolloff : Option ℚ
  spectral_spread : Option ℚ
  spectral_skewness : Option ℚ
  spectral_kurtosis : Option ℚ
  perceptual_spread : Option ℚ
  perceptual_sharpness : Option ℚ
  chroma : Fin 12 → Option ℚ
  perceptual_loudness : Fin 24 → Option ℚ
  mfcc : Fin 13 → Option ℚ

/-- A row with every nullable column NULL (used to build concrete inputs). -/
def blankRow : MediaAnalysisRow :=
  ⟨none, none, none, none, none, none, none, none, none, none, none, none,
    fun _ => none, fun _ => none, fun _ => none⟩

/-- `AggregatedAnalysisResult` (lines 270-286): all fields plain `f64`. -/
structure AggregatedAnalysisResult where
  rms : ℚ
  zcr : ℚ
  energy : ℚ
  spectral_centroid : ℚ
  spectral_flatness : ℚ
  spectral_slope : ℚ
  spectral_rolloff : ℚ
  spectral_spread : ℚ
  spectral_skewness : ℚ
  spectral_kurtosis : ℚ
  perceptual_spread : ℚ
  perceptual_sharpness : ℚ
  chroma : Fin 12 → ℚ
  perceptual_loudness : Fin 24 → ℚ
  mfcc : Fin 13 → ℚ

/-- The all-zero accumulator both `sum` and `count` start from
(lines 443-477). -/
def zeroAgg : AggregatedAnalysisResult :=
  ⟨0, 0, 0, 0, 0, 0, 0, 0, 0, 0, 0, 0, fun _ => 0, fun _ => 0, fun _ => 0⟩

/-- One `process_field!`/`process_array!` step on one axis (lines 362-383):
a non-null value is added to the running sum and bumps the running count by
`1.0`; a NULL leaves both untouched. -/
def accField : ℚ × ℚ → Option ℚ → ℚ × ℚ
  | (s, c), some v => (s + v, c + 1)
  | (s, c), none => (s, c)

/-- The body of the `for result in analysis_results` loop (lines 479-496):
every scalar axis and every array position is accumulated independently by
`accField`. The pair is (sum accumulator, count accumulator). -/
def processRow (acc : AggregatedAnalysisResult × AggregatedAnalysisResult)
    (r : MediaAnalysisRow) : AggregatedAnalysisResult × AggregatedAnalysisResult :=
  ( { rms := (accField (acc.1.rms, acc.2.rms) r.rms).1
      zcr := (accField (acc.1.zcr, acc.2.zcr) r.zcr).1
      energy := (accField (acc.1.energy, acc.2.energy) r.energy).1
      spectral_centroid :=
        (accField (acc.1.spectral_centroid, acc.2.spectral_centroid) r.spectral_centroid).1
      spectral_flatness :=
        (accField (acc.1.spectral_flatness, acc.2.spectral_flatness) r.spectral_flatness).1
      spectral_slope := (accField (acc.1.spectral_slope, acc.2.spectral_slope) r.spectral_slope).1
      spectral_rolloff :=
        (accField (acc.1.spectral_rolloff, acc.2.spectral_rolloff) r.spectral_rolloff).1
      spectral_spread :=
        (accField (acc.1.spectral_spread, acc.2.spectral_spread) r.spectral_spread).1
      spectral_skewness :=
        (accField (acc.1.spectral_skewness, acc.2.spectral_skewness) r.spectral_skewness).1
      spectral_kurtosis :=
        (accField (acc.1.spectral_kurtosis, acc.2.spectral_kurtosis) r.spectral_kurtosis).1
      perceptual_spread :=
        (accField (acc.1.perceptual_spread, acc.2.perceptual_spread) r.perceptual_spread).1
      perceptual_sharpness :=
        (accField (acc.1.perceptual_sharpness, acc.2.perceptual_sharpness) r.perceptual_sharpness).1
      chroma := fun i => (accField (acc.1.chroma i, acc.2.chroma i) (r.chroma i)).1
      perceptual_loudness := fun i =>
        (accField (acc.1.perceptual_loudness i, acc.2.perceptual_loudness i)
          (r.perceptual_loudness i)).1
      mfcc := fun i => (accField (acc.1.mfcc i, acc.2.mfcc i) (r.mfcc i)).1 },
    { rms := (accField (acc.1.rms, acc.2.rms) r.rms).2
      zcr := (accField (acc.1.zcr, acc.2.zcr) r.zcr).2
      energy := (accField (acc.1.energy, acc.2.energy) r.energy).2
      spectral_centroid :=
        (accField (acc.1.spectral_centroid, acc.2.spectral_centroid) r.spectral_centroid).2
      spectral_flatness :=
        (accField (acc.1.spectral_flatness, acc.2.spectral_flatness) r.spectral_flatness).2
      spectral_slope := (accField (acc.1.spectral_slope, acc.2.spectral_slope) r.spectral_slope).2
      spectral_rolloff :=
        (accField (acc.1.spectral_rolloff, acc.2.spectral_rolloff) r.spectral_rolloff).2
      spectral_spread :=
        (accField (acc.1.spectral_spread, acc.2.spectral_spread) r.spectral_spread).2
      spectral_skewness :=
        (accField (acc.1.spectral_skewness, acc.2.spectral_skewness) r.spectral_skewness).2
      spectral_kurtosis :=
        (accField (acc.1.spectral_kurtosis, acc.2.spectral_kurtosis) r.spectral_kurtosis).2
      perceptual_spread :=
        (accField (acc.1.perceptual_spread, acc.2.perceptual_spread) r.perceptual_spread).2
      perceptual_sharpness :=
        (accField (acc.1.perceptual_sharpness, acc.2.perceptual_sharpness) r.perceptual_sharpness).2
      chroma := fun i => (accField (acc.1.chroma i, acc.2.chroma i) (r.chroma i)).2
      perceptual_loudness := fun i =>
        (accField (acc.1.perceptual_loudness i, acc.2.perceptual_loudness i)
          (r.perceptual_loudness i)).2
      mfcc := fun i => (accField (acc.1.mfcc i, acc.2.mfcc i) (r.mfcc i)).2 } )

/-- `calculate_mean!`/one cell of `calculate_array_mean!` (lines 386-409):
`sum / count` when the count is positive, `0.0` otherwise. -/
def calcMean (s c : ℚ) : ℚ := if 0 < c then s / c else 0

/-- The pure tail of `get_centralized_analysis_result` (lines 443-515):
fold the loaded rows through the accumulation macros, then take the per-axis
guarded means. -/
def centralizedOf (rows : List MediaAnalysisRow) : AggregatedAnalysisResult :=
  let sc := rows.foldl processRow (zeroAgg, zeroAgg)
  { rms := calcMean sc.1.rms sc.2.rms
    zcr := calcMean sc.1.zcr sc.2.zcr
    energy := calcMean sc.1.energy sc.2.energy
    spectral_centroid := calcMean sc.1.spectral_centroid sc.2.spectral_centroid
    spectral_flatness := calcMean sc.1.spectral_flatness sc.2.spectral_flatness
    spectral_slope := calcMean sc.1.spectral_slope sc.2.spectral_slope
    spectral_rolloff := calcMean sc.1.spectral_rolloff sc.2.spectral_rolloff
    spectral_spread := calcMean sc.1.spectral_spread sc.2.spectral_spread
    spectral_skewness := calcMean sc.1.spectral_skewness sc.2.spectral_skewness
    spectral_kurtosis := calcMean sc.1.spectral_kurtosis sc.2.spectral_kurtosis
    perceptual_spread := calcMean sc.1.perceptual_spread sc.2.perceptual_spread
    perceptual_sharpness := calcMean sc.1.perceptual_sharpness sc.2.perceptual_sharpness
    chroma := fun i => calcMean (sc.1.chroma i) (sc.2.chroma i)
    perceptual_loudness := fun i =>
      calcMean (sc.1.perceptual_loudness i) (sc.2.perceptual_loudness i)
    mfcc := fun i => calcMean (sc.1.mfcc i) (sc.2.mfcc i) }

/-- A database error (the payload is irrelevant to the model). -/
structure DbErr where
  code : ℕ

/-- A value of `α`, or an abort of the process. -/
inductive PanicOr (α : Type) where
  | panicked
  | value (a : α)

/-- `get_centralized_analysis_result` (lines 433-515): the query
`media_analysis WHERE file_id IN file_ids` is `.unwrap()`ed (line 441), so a
query error aborts instead of surfacing through the return type (which has no
error case). The query's outcome is passed in as an `Except`. -/
def get_centralized_analysis_result (query : Except DbErr (List MediaAnalysisRow)) :
    PanicOr AggregatedAnalysisResult :=
  match query with
  | .error _ => .panicked
  | .ok analysis_results => .value (centralizedOf analysis_results)

/-- The specification-side per-axis aggregate: the arithmetic mean of the
non-null entries, `0` when every entry is null. -/
def meanOpt (l : List (Option ℚ)) : ℚ :=
  let v := l.filterMap id
  if v.length = 0 then 0 else v.sum / (v.length : ℚ)

/-! ## The per-file signal analyzer (spec sections 4.1-4.2)

Modelled from the spec: the module `analysis::analysis` that implements
`analyze_audio` (the Spectral Frame Analyzer and per-file Feature Aggregator)
is not among the repository files under review; the definitions below follow
spec sections 4.1-4.2 word by word. Samples are `ℚ`. The transcendental
ingredients of the chain — the windowed-DFT power spectrum, the geometric
mean used by flatness, the square root, the logarithm, and the mel / DCT /
loudness-band tables — have no exact rational values, so they enter as the
oracle functions of `AnalyzerOracles`; the theorems assume of them only what
the spec guarantees (a linear window-and-transform chain maps an all-zero
frame to an all-zero spectrum; a spectrum has at least two frequency bins;
the square root of zero is zero). A scalar descriptor is `Option ℚ` with
`none` playing IEEE NaN/Infinity: `fdiv` is the only NaN source, exactly as
division is in the floating-point code the spec describes. -/

/-- The transcendental parts of the analysis chain, abstracted. -/
structure AnalyzerOracles where
  powerSpectrum : List ℚ → List ℚ
  geoMean : List ℚ → ℚ
  sqrtQ : ℚ → ℚ
  logQ : ℚ → ℚ
  melPower : List ℚ → ℕ → ℚ
  dctW : ℕ → ℕ → ℚ
  loudnessBand : List ℚ → ℕ → ℚ
  sharpW : ℕ → ℚ

/-- Floating-point division: a zero divisor yields NaN or ±Infinity,
modelled as `none`. -/
def fdiv (a b : ℚ) : Option ℚ := if b = 0 then none else some (a / b)

/-- Mean of a rational list, `0` on the empty list (the guarded form every
running mean of the spec reduces to). -/
def meanQ (l : List ℚ) : ℚ := if l.length = 0 then 0 else l.sum / (l.length : ℚ)

/-- Modelled from the spec (4.1): the lazy sequence of overlapping frames of
length `w` advancing by hop `h`; a trailing frame shorter than `w` is
dropped (the spec fixes either dropping or zero-padding; the model fixes
dropping). A hop of `0` or a signal shorter than one window yields no
frames. -/
def framesOf (sig : List ℚ) (w h : ℕ) : List (List ℚ) :=
  (List.range (if sig.length < w ∨ h = 0 then 0 else (sig.length - w) / h + 1)).map
    (fun i => (sig.drop (i * h)).take w)

/-- `∑ i, i^k * p_i` over the spectrum with its bin index as frequency. -/
def binMoment (P : List ℚ) (k : ℕ) : ℚ :=
  (P.enum.map (fun ip => ((ip.1 : ℚ)) ^ k * ip.2)).sum

/-- `∑ i, (i - μ)^k * p_i`, the central moments over the bins. -/
def binCentralMoment (P : List ℚ) (μ : ℚ) (k : ℕ) : ℚ :=
  (P.enum.map (fun ip => ((ip.1 : ℚ) - μ) ^ k * ip.2)).sum

/-- `∑ i, i^k` over the bin indices of the spectrum (the regressor sums of
the spectral-slope least-squares fit). -/
def idxPow (P : List ℚ) (k : ℕ) : ℚ :=
  ((List.range P.length).map (fun i => ((i : ℚ)) ^ k)).sum

/-- Modelled from the spec (4.1, glossary): the rolloff bin — the first bin
below which 85% of the spectral power lies. A pure scan, no division. -/
def rolloffBin (P : List ℚ) : ℚ :=
  match (List.range P.length).find? (fun i => decide (85 * P.sum ≤ 100 * (P.take (i + 1)).sum)) with
  | some i => (i : ℚ)
  | none => 0

/-- Modelled from the spec (4.1): the twelve-bin chroma of one spectrum,
folding spectral energy into pitch classes by bin index modulo 12. -/
def chromaOf (P : List ℚ) (c : Fin 12) : ℚ :=
  ((P.enum.filter (fun ip => decide (ip.1 % 12 = (c : ℕ)))).map (fun ip => ip.2)).sum

/-- The per-frame spectral descriptors of spec 4.1. The spec's edge case is
the outer guard: a frame with zero spectral power yields `0` for every
descriptor "rather than a division-by-zero or NaN". The degenerate
denominators that survive that guard (a regression over fewer than two bins,
a zero standard deviation under skewness/kurtosis) are also guarded to `0`,
forced by the spec's finiteness invariant (section 3, RawFeatureSet). -/
structure FrameDescriptors where
  centroid : Option ℚ
  flatness : Option ℚ
  slope : Option ℚ
  rolloff : Option ℚ
  spread : Option ℚ
  skewness : Option ℚ
  kurtosis : Option ℚ

/-- Modelled from the spec (4.1): one frame's descriptors from its power
spectrum. -/
def frameDescriptors (O : AnalyzerOracles) (frame : List ℚ) : FrameDescriptors :=
  let P := O.powerSpectrum frame
  let total := P.sum
  let n : ℚ := (P.length : ℚ)
  if total = 0 then
    ⟨some 0, some 0, some 0, some 0, some 0, some 0, some 0⟩
  else
    let μ := binMoment P 1 / total
    let σ := O.sqrtQ (binCentralMoment P μ 2 / total)
    { centroid := fdiv (binMoment P 1) total
      flatness := fdiv (O.geoMean P) (total / n)
      slope :=
        if n * idxPow P 2 - (idxPow P 1) ^ 2 = 0 then some 0
        else some ((n * binMoment P 1 - idxPow P 1 * total) / (n * idxPow P 2 - (idxPow P 1) ^ 2))
      rolloff := some (rolloffBin P)
      spread := some σ
      skewness := if σ = 0 then some 0
        else some ((binCentralMoment P μ 3 / total) / σ ^ 3)
      kurtosis := if σ = 0 then some 0
        else some ((binCentralMoment P μ 4 / total) / σ ^ 4) }

/-- The mean across frames of an optional (NaN-able) per-frame value: any NaN
poisons the mean; no frames yield `0` (the running mean of nothing). -/
def optMean (l : List (Option ℚ)) : Option ℚ :=
  if l.any (fun x => x.isNone) then none else some (meanQ (l.filterMap id))

/-- The per-file `RawFeatureSet` of the model (spec section 3): scalars that
a floating-point division could poison are `Option ℚ`; the array descriptors
are rational-valued band sums and transforms, total by construction. -/
structure AnalysisResult where
  rms : ℚ
  zcr : ℚ
  energy : ℚ
  spectral_centroid : Option ℚ
  spectral_flatness : Option ℚ
  spectral_slope : Option ℚ
  spectral_rolloff : Option ℚ
  spectral_spread : Option ℚ
  spectral_skewness : Option ℚ
  spectral_kurtosis : Option ℚ
  perceptual_spread : Option ℚ
  perceptual_sharpness : Option ℚ
  chroma : Fin 12 → ℚ
  perceptual_loudness : Fin 24 → ℚ
  mfcc : Fin 13 → ℚ

/-- Modelled from the spec (4.1-4.2, the `analyze_audio` collaborator):
frame the signal, compute per-frame descriptors, and fold them into one
`RawFeatureSet` by arithmetic means per scalar and per array position; RMS,
zero-crossing rate and energy come from the time-domain signal as running
means; the perceptual pair is an equal-loudness-weighted band decomposition
with the zero-loudness guard the finiteness invariant forces. -/
def analyzeSignal (O : AnalyzerOracles) (sig : List ℚ) (w h : ℕ) : AnalysisResult :=
  let fs := framesOf sig w h
  let ds := fs.map (frameDescriptors O)
  let bands := fun b : Fin 24 => meanQ (fs.map (fun f => O.loudnessBand (O.powerSpectrum f) b))
  let loudTotal := ((List.finRange 24).map bands).sum
  { rms := O.sqrtQ (meanQ (sig.map (fun x => x ^ 2)))
    zcr := if sig.length = 0 then 0
      else (((sig.zip sig.tail).filter (fun ab => decide (ab.1 * ab.2 < 0))).length : ℚ) /
        (sig.length : ℚ)
    energy := meanQ (sig.map (fun x => x ^ 2))
    spectral_centroid := optMean (ds.map (fun d => d.centroid))
    spectral_flatness := optMean (ds.map (fun d => d.flatness))
    spectral_slope := optMean (ds.map (fun d => d.slope))
    spectral_rolloff := optMean (ds.map (fun d => d.rolloff))
    spectral_spread := optMean (ds.map (fun d => d.spread))
    spectral_skewness := optMean (ds.map (fun d => d.skewness))
    spectral_kurtosis := optMean (ds.map (fun d => d.kurtosis))
    perceptual_spread := if loudTotal = 0 then some 0
      else fdiv (((List.finRange 24).map
        (fun b => (((b : ℕ) : ℚ) - 12) ^ 2 * bands b)).sum) loudTotal
    perceptual_sharpness := if loudTotal = 0 then some 0
      else fdiv (((List.finRange 24).map
        (fun b => O.sharpW (b : ℕ) * bands b)).sum) loudTotal
    chroma := fun c => meanQ (fs.map (fun f => chromaOf (O.powerSpectrum f) c))
    perceptual_loudness := bands
    mfcc := fun m => meanQ (fs.map (fun f =>
      ((List.range 26).map (fun j => O.dctW (m : ℕ) j * O.logQ (O.melPower (O.powerSpectrum f) j))).sum)) }

/-- A concrete instantiation of the oracles (the naive energy spectrum with
two padding bins, the identity square root): it witnesses that the
hypotheses the analyzer theorems place on `AnalyzerOracles` are satisfiable. -/
def sampleOracles : AnalyzerOracles where
  powerSpectrum := fun f => f.map (fun x => x ^ 2) ++ [0, 0]
  geoMean := fun _ => 0
  sqrtQ := fun x => x
  logQ := fun x => x
  melPower := fun P j => ((P.take (j + 1)).sum)
  dctW := fun _ _ => 1
  loudnessBand := fun P b => ((P.drop b).take 1).sum
  sharpW := fun b => (b : ℚ)

/-! ## Helper lemmas about the aggregation fold -/

/-- A projection that commutes with the fold step commutes with the whole
fold. -/
theorem foldl_proj {α β : Type} (step : α → β → α) (g : α → ℚ × ℚ) (f : β → Option ℚ)
    (hc : ∀ a b, g (step a b) = accField (g a) (f b)) (l : List β) (a : α) :
    g (l.foldl step a) = (l.map f).foldl accField (g a) := by
  induction l generalizing a with
  | nil => rfl
  | cons x xs ih => simp only [List.foldl_cons, List.map_cons, ih, hc]

/-- The accumulation step, folded: the sum of the non-null values and their
count land in the two components. -/
theorem accField_foldl (l : List (Option ℚ)) (s c : ℚ) :
    l.foldl accField (s, c) =
      (s + (l.filterMap id).sum, c + ((l.filterMap id).length : ℚ)) := by
  induction l generalizing s c with
  | nil => simp
  | cons x xs ih =>
    cases x with
    | none => simpa using ih s c
    | some v =>
      have hf : List.filterMap id (some v :: xs) = v :: List.filterMap id xs := rfl
      simp only [List.foldl_cons, accField, ih, hf, List.sum_cons, List.length_cons]
      push_cast
      simp only [Prod.mk.injEq]
      constructor <;> ring

/-- The guarded mean of the folded accumulator is the mean over the non-null
entries (`0` when there are none). -/
theorem calcMean_foldl (l : List (Option ℚ)) :
    calcMean (l.foldl accField (0, 0)).1 (l.foldl accField (0, 0)).2 = meanOpt l := by
  rw [accField_foldl]
  simp only [calcMean, meanOpt, zero_add]
  rcases Nat.eq_zero_or_pos (l.filterMap id).length with h | h
  · simp [h]
  · rw [if_pos (by exact_mod_cast h), if_neg (by omega)]

/-- One axis of `centralizedOf`, for any field selector that commutes with
the per-row step: it is the mean over the rows with a non-null value there. -/
theorem centralized_axis (g : MediaAnalysisRow → Option ℚ) (p : AggregatedAnalysisResult → ℚ)
    (hp : ∀ acc r,
      (p (processRow acc r).1, p (processRow acc r).2) = accField (p acc.1, p acc.2) (g r))
    (hz : p zeroAgg = 0) (rows : List MediaAnalysisRow) :
    calcMean (p (rows.foldl processRow (zeroAgg, zeroAgg)).1)
      (p (rows.foldl processRow (zeroAgg, zeroAgg)).2) = meanOpt (rows.map g) := by
  have h := foldl_proj processRow (fun acc => (p acc.1, p acc.2)) g hp rows (zeroAgg, zeroAgg)
  rw [hz] at h
  rw [show p (rows.foldl processRow (zeroAgg, zeroAgg)).1 =
        ((rows.map g).foldl accField (0, 0)).1 from congrArg Prod.fst h,
      show p (rows.foldl processRow (zeroAgg, zeroAgg)).2 =
        ((rows.map g).foldl accField (0, 0)).2 from congrArg Prod.snd h]
  exact calcMean_foldl (rows.map g)

/-! ## Helper lemmas about the keyset-paginating producer -/

/-- Sorting commutes with filtering (both sides are sorted permutations of
the same multiset). -/
theorem insertionSort_filter (p : Int → Bool) (l : List Int) :
    List.insertionSort (· ≤ ·) (l.filter p) = (List.insertionSort (· ≤ ·) l).filter p := by
  refine List.eq_of_perm_of_sorted ?_ (List.sorted_insertionSort _ _)
    ((List.sorted_insertionSort _ l).filter p)
  exact (List.perm_insertionSort _ _).trans ((List.perm_insertionSort _ l).filter p).symm

/-- One cursor query is a window of the sorted anti-join: the first `lim`
elements past the pagination bound. -/
theorem queryPage_eq (fileIds existed : List Int) (after : Option Int) (lim : ℕ) :
    queryPage fileIds existed after lim =
      ((unfeaturedSorted fileIds existed).filter (afterP after)).take lim := by
  unfold queryPage unfeaturedSorted
  rw [insertionSort_filter]

theorem unfeaturedSorted_sorted (fileIds existed : List Int) :
    (unfeaturedSorted fileIds existed).Pairwise (· ≤ ·) :=
  List.sorted_insertionSort _ _

theorem unfeaturedSorted_nodup (fileIds existed : List Int) (hnd : fileIds.Nodup) :
    (unfeaturedSorted fileIds existed).Nodup :=
  (List.perm_insertionSort _ _).nodup_iff.mpr (hnd.filter _)

/-- With distinct primary keys the sorted anti-join is strictly
increasing. -/
theorem unfeaturedSorted_strict (fileIds existed : List Int) (hnd : fileIds.Nodup) :
    (unfeaturedSorted fileIds existed).Pairwise (· < ·) :=
  ((unfeaturedSorted_sorted fileIds existed).and
    (unfeaturedSorted_nodup fileIds existed hnd)).imp
    (fun hab => lt_of_le_of_ne hab.1 hab.2)

theorem unfeaturedSorted_mem (fileIds existed : List Int) (i : Int) :
    i ∈ unfeaturedSorted fileIds existed ↔ i ∈ fileIds ∧ i ∉ existed := by
  unfold unfeaturedSorted
  rw [(List.perm_insertionSort _ _).mem_iff]
  simp [List.mem_filter]

theorem unfeaturedSorted_length_le (fileIds existed : List Int) :
    (unfeaturedSorted fileIds existed).length ≤ fileIds.length := by
  unfold unfeaturedSorted
  rw [(List.perm_insertionSort _ _).length_eq]
  exact List.length_filter_le _ _

/-- Advancing the cursor past the last id of the current page drops exactly
that page from a strictly increasing list. -/
theorem filter_after_getLast_take :
    ∀ (r : List Int) (B : ℕ), 1 ≤ B → r.Pairwise (· < ·) →
      ∀ l : Int, (r.take B).getLast? = some l →
        r.filter (afterP (some l)) = r.drop B := by
  intro r
  induction r with
  | nil => intro B _ _ l hl; simp at hl
  | cons x t ih =>
    intro B hB hp l hl
    obtain ⟨b, rfl⟩ : ∃ b, B = b + 1 := ⟨B - 1, by omega⟩
    rw [List.take_succ_cons] at hl
    rcases hpc : t.take b with _ | ⟨y, ys⟩
    · rw [hpc, List.getLast?_singleton] at hl
      obtain rfl : x = l := by injection hl
      have hkeep : t.filter (afterP (some x)) = t := by
        refine List.filter_eq_self.mpr (fun a ha => ?_)
        simp only [afterP, decide_eq_true_eq]
        exact (List.pairwise_cons.mp hp).1 a ha
      have hb : b = 0 ∨ t = [] := by
        rcases List.take_eq_nil_iff.mp hpc with h | h
        · exact Or.inl h
        · exact Or.inr h
      have hhead : afterP (some x) x = false := by simp [afterP]
      rw [List.drop_succ_cons, List.filter_cons, hhead]
      simp only [Bool.false_eq_true, if_false, hkeep]
      rcases hb with rfl | rfl
      · simp
      · simp
    · have hne : b ≠ 0 := by
        intro h; rw [h, List.take_zero] at hpc; exact List.noConfusion hpc
      rw [hpc, List.getLast?_cons_cons] at hl
      rw [← hpc] at hl
      have hlmem : l ∈ t := by
        have h1 : l ∈ t.take b := by
          rcases List.mem_getLast?_eq_getLast (by rw [hl]; rfl) with ⟨h2, rfl⟩
          exact List.getLast_mem h2
        exact List.mem_of_mem_take h1
      have hxl : x < l := (List.pairwise_cons.mp hp).1 l hlmem
      have hhead : afterP (some l) x = false := by simp [afterP, not_lt.mpr hxl.le]
      rw [List.drop_succ_cons, List.filter_cons, hhead]
      simp only [Bool.false_eq_true, if_false]
      exact ih b (by omega) (List.pairwise_cons.mp hp).2 l hl

/-- The flattened producer output from any cursor position that corresponds
to a suffix of the sorted anti-join is exactly that suffix (no cancellation,
enough fuel). -/
theorem producerLoop_flatten (fileIds existed : List Int) (B : ℕ) (hB : 1 ≤ B)
    (hnd : fileIds.Nodup) :
    ∀ (fuel : ℕ) (after : Option Int) (it k : ℕ),
      (unfeaturedSorted fileIds existed).filter (afterP after) =
        (unfeaturedSorted fileIds existed).drop k →
      (unfeaturedSorted fileIds existed).length - k < fuel →
      (producerLoop fileIds existed B (fun _ => false) fuel after it).flatten =
        (unfeaturedSorted fileIds existed).drop k := by
  intro fuel
  induction fuel with
  | zero => intro after it k _ hfuel; omega
  | succ fuel ih =>
    intro after it k hAfter hfuel
    have hv := unfeaturedSorted_strict fileIds existed hnd
    simp only [producerLoop, Bool.false_eq_true, if_false]
    rw [queryPage_eq, hAfter]
    by_cases hre : (unfeaturedSorted fileIds existed).drop k = []
    · simp [hre]
    · have hpage : ((unfeaturedSorted fileIds existed).drop k).take B ≠ [] := by
        rw [Ne, List.take_eq_nil_iff]
        push_neg
        exact ⟨by omega, hre⟩
      rcases hlast : (((unfeaturedSorted fileIds existed).drop k).take B).getLast? with _ | l
      · exact absurd (List.getLast?_eq_none_iff.mp hlast) hpage
      · rw [if_neg (by simpa [List.isEmpty_iff] using hpage)]
        simp only [hlast, List.flatten_cons]
        have hmeml : l ∈ (unfeaturedSorted fileIds existed).drop k := by
          have h1 : l ∈ ((unfeaturedSorted fileIds existed).drop k).take B := by
            rcases List.mem_getLast?_eq_getLast (by rw [hlast]; rfl) with ⟨h2, rfl⟩
            exact List.getLast_mem h2
          exact List.mem_of_mem_take h1
        have hnext : (unfeaturedSorted fileIds existed).filter (afterP (some l)) =
            (unfeaturedSorted fileIds existed).drop (k + B) := by
          conv_lhs => rw [← List.take_append_drop k (unfeaturedSorted fileIds existed)]
          rw [List.filter_append]
          have hsplit := List.pairwise_append.mp
            (show ((unfeaturedSorted fileIds existed).take k ++
                (unfeaturedSorted fileIds existed).drop k).Pairwise (· < ·) by
              rw [List.take_append_drop]; exact hv)
          have hpre : ((unfeaturedSorted fileIds existed).take k).filter (afterP (some l)) = [] := by
            rw [List.filter_eq_nil_iff]
            intro x hx
            have hxl : x < l := hsplit.2.2 x hx l hmeml
            simp [afterP, not_lt.mpr hxl.le]
          rw [hpre, List.nil_append,
            filter_after_getLast_take ((unfeaturedSorted fileIds existed).drop k) B hB
              (hv.sublist (List.drop_sublist k (unfeaturedSorted fileIds existed))) l hlast,
            List.drop_drop]
        have hklt : k < (unfeaturedSorted fileIds existed).length := by
          by_contra hk
          exact hre (List.drop_eq_nil_of_le (by omega))
        rw [ih (some l) (it + 1) (k + B) hnext (by omega)]
        rw [← List.drop_drop, List.take_append_drop]

/-! ## Helper lemmas about the consumer -/

/-- Characterisation of the consumer when every transaction commits and the
token is never cancelled: starting with fewer pending tasks than one batch,
it never fails, commits one transaction per full batch of the incoming
stream `tasks ++ queue` (inserting exactly the successful results, in stream
order), leaves the trailing sub-batch remainder computed but uncommitted,
and reports progress once per commit plus once for a non-empty remainder. -/
theorem consumerLoop_ok (B total : ℕ) (ok : Int → Bool) (ck : ℕ → Bool)
    (hck : ∀ j, ck j = true) (hB : 1 ≤ B) :
    ∀ (queue tasks : List Int) (ci bi tp : ℕ), tasks.length < B →
      (consumerLoop B total ok ck (fun _ => false) queue tasks ci bi tp).fatal = false ∧
      (consumerLoop B total ok ck (fun _ => false) queue tasks ci bi tp).committed.length =
        (tasks.length + queue.length) / B ∧
      (consumerLoop B total ok ck (fun _ => false) queue tasks ci bi tp).committed.flatten =
        ((tasks ++ queue).take (B * ((tasks.length + queue.length) / B))).filter ok ∧
      (consumerLoop B total ok ck (fun _ => false) queue tasks ci bi tp).remainingComputed =
        ((tasks ++ queue).drop (B * ((tasks.length + queue.length) / B))).filter ok ∧
      (consumerLoop B total ok ck (fun _ => false) queue tasks ci bi tp).progressEvents =
        (List.range ((tasks.length + queue.length) / B)).map
            (fun j => (tp + B * (j + 1), total)) ++
          (if B * ((tasks.length + queue.length) / B) < tasks.length + queue.length then
            [(tp + (tasks.length + queue.length), total)]
          else []) := by
  intro queue
  induction queue with
  | nil =>
    intro tasks ci bi tp ht
    have hm0 : tasks.length / B = 0 := Nat.div_eq_of_lt ht
    by_cases hemp : tasks = []
    · subst hemp
      simp [consumerLoop, remainingBlock]
    · have hpos : 0 < tasks.length := List.length_pos.mpr hemp
      simp only [consumerLoop, remainingBlock, List.length_nil, Nat.add_zero,
        List.append_nil, hm0, Nat.mul_zero, List.take_zero, List.drop_zero,
        List.filter_nil, List.range_zero, List.map_nil, List.nil_append,
        List.isEmpty_iff, if_neg hemp]
      simp [hpos]
  | cons f rest ih =>
    intro tasks ci bi tp ht
    simp only [consumerLoop]
    rw [if_neg (by simp)]
    by_cases htrig : B ≤ (tasks ++ [f]).length
    · have hlen1 : tasks.length + 1 = B := by
        simp only [List.length_append, List.length_singleton, List.length_nil,
          List.length_cons] at htrig
        omega
      have hlen : (tasks ++ [f]).length = B := by
        simp only [List.length_append, List.length_singleton, List.length_nil, List.length_cons]
        omega
      rw [if_pos htrig, if_pos (hck bi), hlen]
      obtain ⟨h1, h2, h3, h4, h5⟩ :=
        ih [] (ci + 1) (bi + 1) (tp + B) (by simpa using hB)
      simp only [List.length_nil, List.nil_append, Nat.zero_add] at h1 h2 h3 h4 h5
      have happ : tasks ++ f :: rest = (tasks ++ [f]) ++ rest := by simp
      have hm : (tasks.length + (rest.length + 1)) / B = rest.length / B + 1 := by
        have harith : tasks.length + (rest.length + 1) = rest.length + B := by omega
        rw [harith, Nat.add_div_right _ (by omega)]
      have hidx : B * (rest.length / B) + B = (tasks ++ [f]).length + B * (rest.length / B) := by
        rw [hlen]; omega
      refine ⟨h1, ?_, ?_, ?_, ?_⟩
      · simp only [List.length_cons, h2, hm]
      · simp only [List.flatten_cons, h3, List.length_cons, hm, happ, Nat.mul_succ]
        rw [hidx, List.take_append]
        cases hof : ok f <;> simp [List.filter_append, List.filter_cons, hof]
      · simp only [h4, List.length_cons, hm, happ, Nat.mul_succ]
        rw [hidx, List.drop_append]
      · simp only [h5, List.length_cons, hm, hlen, List.range_succ_eq_map, List.map_cons,
          List.map_map, List.cons_append]
        congr 1
        · congr 1
          ring
        congr 1
        · refine List.map_congr_left (fun j _ => ?_)
          simp only [Function.comp_apply]
          congr 1
          simp only [Nat.succ_eq_add_one]
          ring
        · have hcond2 : (B * (rest.length / B + 1) < tasks.length + (rest.length + 1)) ↔
              (B * (rest.length / B) < rest.length) := by
            rw [Nat.mul_succ]
            omega
          by_cases hc : B * (rest.length / B) < rest.length
          · rw [if_pos hc, if_pos (hcond2.mpr hc)]
            have hval : tp + B + rest.length = tp + (tasks.length + (rest.length + 1)) := by
              omega
            rw [hval]
          · rw [if_neg hc, if_neg (fun h => hc (hcond2.mp h))]
    · rw [if_neg htrig]
      have e2 : tasks.length + (f :: rest).length = (tasks ++ [f]).length + rest.length := by
        simp only [List.length_cons, List.length_append, List.length_singleton, List.length_nil]
        omega
      have e1 : tasks ++ f :: rest = (tasks ++ [f]) ++ rest := by simp
      rw [e1, e2]
      exact ih (tasks ++ [f]) (ci + 1) bi tp
        (by simp only [List.length_append, List.length_singleton, List.length_nil,
            List.length_cons] at htrig ⊢; omega)

/-- Characterisation of the consumer up to the first failing transaction (no
cancellation): if transaction `jF` fails, every earlier one succeeds and the
stream is long enough to reach it, the consumer async block returns a fatal
error having committed exactly the batches before `jF` — nothing of the
failing batch is persisted, no progress is reported for it, and the
remaining-tasks block never runs. (Whether that error ever reaches the
caller is a separate question settled in `analysis_audio_library`: the
enclosing `futures::join!` resolves only if the producer can finish.) -/
theorem consumerLoop_fatal (B total : ℕ) (ok : Int → Bool) (ck : ℕ → Bool) (jF : ℕ)
    (hgood : ∀ j, j < jF → ck j = true) (hbad : ck jF = false) (hB : 1 ≤ B) :
    ∀ (queue tasks : List Int) (ci bi tp : ℕ), tasks.length < B → bi ≤ jF →
      jF - bi < (tasks.length + queue.length) / B →
      (consumerLoop B total ok ck (fun _ => false) queue tasks ci bi tp).fatal = true ∧
      (consumerLoop B total ok ck (fun _ => false) queue tasks ci bi tp).committed.length =
        jF - bi ∧
      (consumerLoop B total ok ck (fun _ => false) queue tasks ci bi tp).committed.flatten =
        ((tasks ++ queue).take (B * (jF - bi))).filter ok ∧
      (consumerLoop B total ok ck (fun _ => false) queue tasks ci bi tp).remainingComputed =
        [] ∧
      (consumerLoop B total ok ck (fun _ => false) queue tasks ci bi tp).progressEvents =
        (List.range (jF - bi)).map (fun j => (tp + B * (j + 1), total)) := by
  intro queue
  induction queue with
  | nil =>
    intro tasks ci bi tp ht hbi hreach
    have hm0 : (tasks.length + ([] : List Int).length) / B = 0 := by
      simpa using Nat.div_eq_of_lt ht
    omega
  | cons f rest ih =>
    intro tasks ci bi tp ht hbi hreach
    simp only [consumerLoop]
    rw [if_neg (by simp)]
    by_cases htrig : B ≤ (tasks ++ [f]).length
    · have hlen1 : tasks.length + 1 = B := by
        simp only [List.length_append, List.length_singleton, List.length_nil,
          List.length_cons] at htrig
        omega
      have hlen : (tasks ++ [f]).length = B := by
        simp only [List.length_append, List.length_singleton, List.length_nil, List.length_cons]
        omega
      have hm : (tasks.length + (rest.length + 1)) / B = rest.length / B + 1 := by
        have harith : tasks.length + (rest.length + 1) = rest.length + B := by omega
        rw [harith, Nat.add_div_right _ (by omega)]
      rw [if_pos htrig]
      by_cases hbieq : bi = jF
      · rw [if_neg (by rw [hbieq]; simp [hbad])]
        have hz : jF - bi = 0 := by omega
        simp [hz]
      · have hbi2 : bi < jF := by omega
        rw [if_pos (hgood bi hbi2), hlen]
        obtain ⟨d, hd⟩ : ∃ d, jF - bi = d + 1 := ⟨jF - bi - 1, by omega⟩
        have hreach2 : jF - (bi + 1) < (([] : List Int).length + rest.length) / B := by
          simp only [List.length_cons] at hreach
          simp only [List.length_nil, Nat.zero_add]
          omega
        obtain ⟨h1, h2, h3, h4, h5⟩ := ih [] (ci + 1) (bi + 1) (tp + B)
          (by simpa using hB) (by omega) hreach2
        simp only [List.length_nil, List.nil_append, Nat.zero_add] at h1 h2 h3 h4 h5
        have hd2 : jF - (bi + 1) = d := by omega
        rw [hd2] at h2 h3 h5
        have happ : tasks ++ f :: rest = (tasks ++ [f]) ++ rest := by simp
        have hidx : B * d + B = (tasks ++ [f]).length + B * d := by rw [hlen]; omega
        refine ⟨h1, ?_, ?_, h4, ?_⟩
        · simp only [List.length_cons, h2, hd]
        · simp only [List.flatten_cons, h3, happ, hd, Nat.mul_succ]
          rw [hidx, List.take_append]
          cases hof : ok f <;> simp [List.filter_append, List.filter_cons, hof]
        · simp only [h5, hd, List.range_succ_eq_map, List.map_cons, List.map_map,
            List.cons_append]
          congr 1
          · congr 1
            ring
          refine List.map_congr_left (fun j _ => ?_)
          simp only [Function.comp_apply]
          congr 1
          simp only [Nat.succ_eq_add_one]
          ring
    · rw [if_neg htrig]
      have e1 : tasks ++ f :: rest = (tasks ++ [f]) ++ rest := by simp
      rw [e1]
      have hq : (tasks ++ [f]).length + rest.length = tasks.length + (f :: rest).length := by
        simp only [List.length_cons, List.length_append, List.length_singleton, List.length_nil]
        omega
      refine ih (tasks ++ [f]) (ci + 1) bi tp
        (by simp only [List.length_append, List.length_singleton, List.length_nil,
          List.length_cons] at htrig ⊢; omega) hbi ?_
      rw [hq]
      exact hreach

/-- With the fuel the run supplies, the uncancelled producer emits exactly
the sorted anti-join. -/
theorem producer_flatten_top (fileIds existed : List Int) (B : ℕ) (hB : 1 ≤ B)
    (hnd : fileIds.Nodup) :
    (producerLoop fileIds existed B (fun _ => false) (fileIds.length + 1) none 0).flatten =
      unfeaturedSorted fileIds existed := by
  have h0 : (unfeaturedSorted fileIds existed).filter (afterP none) =
      (unfeaturedSorted fileIds existed).drop 0 := by
    rw [List.drop_zero]
    exact List.filter_eq_self.mpr (fun a _ => rfl)
  have := producerLoop_flatten fileIds existed B hB hnd (fileIds.length + 1) none 0 0 h0
    (by have := unfeaturedSorted_length_le fileIds existed; omega)
  simpa using this

/-- An uncancelled run with a positive batch size is the consumer applied to
the sorted anti-join: `Ok` when no transaction fails, and on a fatal
consumer error either the propagated `Err` or — when the stream exceeds the
producer's remaining send budget — the deadlock. -/
theorem run_unfold (fileIds existed : List Int) (B : ℕ) (ok : Int → Bool)
    (ck cc : ℕ → Bool) (hB : 1 ≤ B) (hnd : fileIds.Nodup) :
    analysis_audio_library fileIds existed B ok ck (fun _ => false) cc =
      (if (consumerLoop B fileIds.length ok ck cc
            (unfeaturedSorted fileIds existed) [] 0 0 0).fatal then
        (if (unfeaturedSorted fileIds existed).length ≤
            B * ((consumerLoop B fileIds.length ok ck cc
              (unfeaturedSorted fileIds existed) [] 0 0 0).committed.length + 2) then
          RunResult.err (consumerLoop B fileIds.length ok ck cc
            (unfeaturedSorted fileIds existed) [] 0 0 0)
        else RunResult.hung)
      else
        RunResult.ok fileIds.length (consumerLoop B fileIds.length ok ck cc
          (unfeaturedSorted fileIds existed) [] 0 0 0)) := by
  unfold analysis_audio_library
  rw [if_neg (by omega), producer_flatten_top fileIds existed B hB hnd]

/-- Growing the feature store shrinks the anti-join pointwise. -/
theorem unfeaturedSorted_append (fileIds existed tk : List Int) :
    unfeaturedSorted fileIds (existed ++ tk) =
      (unfeaturedSorted fileIds existed).filter (fun i => decide (i ∉ tk)) := by
  unfold unfeaturedSorted
  rw [← insertionSort_filter]
  congr 1
  rw [List.filter_filter]
  refine List.filter_congr (fun a _ => ?_)
  by_cases h1 : a ∈ existed <;> by_cases h2 : a ∈ tk <;> simp [List.mem_append, h1, h2]

/-- Filtering out the members of a disjoint prefix keeps exactly the rest. -/
theorem filter_not_mem_append (tk rest : List Int) (hd : List.Disjoint tk rest) :
    (tk ++ rest).filter (fun i => decide (i ∉ tk)) = rest := by
  rw [List.filter_append]
  have h1 : tk.filter (fun i => decide (i ∉ tk)) = [] := by
    rw [List.filter_eq_nil_iff]
    intro x hx
    simp [hx]
  have h2 : rest.filter (fun i => decide (i ∉ tk)) = rest :=
    List.filter_eq_self.mpr (fun a ha => by
      simp only [decide_eq_true_eq]
      exact fun hmem => hd hmem ha)
  rw [h1, h2, List.nil_append]

/-- Removing a prefix of a duplicate-free list by membership filtering leaves
the matching suffix. -/
theorem filter_not_mem_take (u : List Int) (hnd : u.Nodup) (n : ℕ) :
    u.filter (fun i => decide (i ∉ u.take n)) = u.drop n := by
  have h := filter_not_mem_append (u.take n) (u.drop n)
    (List.disjoint_take_drop hnd (le_refl n))
  rw [List.take_append_drop] at h
  exact h

/-! ## Helper lemmas about the analyzer model -/

theorem meanQ_all_zero (l : List ℚ) (h : ∀ x ∈ l, x = 0) : meanQ l = 0 := by
  unfold meanQ
  rcases Nat.eq_zero_or_pos l.length with hl | hl
  · rw [if_pos hl]
  · rw [if_neg (by omega), List.sum_eq_zero h, zero_div]

theorem optMean_all_some_zero (l : List (Option ℚ)) (h : ∀ x ∈ l, x = some 0) :
    optMean l = some 0 := by
  unfold optMean
  have hnone : l.any (fun x => x.isNone) = false := by
    rw [List.any_eq_false]
    intro x hx
    rw [h x hx]
    simp
  rw [if_neg (by rw [hnone]; exact Bool.false_ne_true), Option.some_inj]
  exact meanQ_all_zero _ (fun x hx => by
    rcases List.mem_filterMap.mp hx with ⟨o, ho, hoe⟩
    rw [h o ho] at hoe
    exact (Option.some_inj.mp hoe).symm)

theorem optMean_isSome (l : List (Option ℚ)) (h : ∀ x ∈ l, x.isSome = true) :
    (optMean l).isSome = true := by
  unfold optMean
  have hnone : l.any (fun x => x.isNone) = false := by
    rw [List.any_eq_false]
    intro x hx
    rcases Option.isSome_iff_exists.mp (h x hx) with ⟨v, rfl⟩
    simp
  rw [if_neg (by rw [hnone]; exact Bool.false_ne_true)]
  rfl

theorem fdiv_isSome (a b : ℚ) (hb : b ≠ 0) : (fdiv a b).isSome = true := by
  rw [fdiv, if_neg hb]
  rfl

theorem ite_some_isSome {c : Prop} [Decidable c] (a b : ℚ) :
    (if c then some a else some b).isSome = true := by
  split <;> rfl

/-- A frame whose power spectrum carries no energy gets the guarded all-zero
descriptors of spec 4.1. -/
theorem frameDescriptors_silent (O : AnalyzerOracles) (frame : List ℚ)
    (h0 : ∀ x ∈ O.powerSpectrum frame, x = 0) :
    frameDescriptors O frame = ⟨some 0, some 0, some 0, some 0, some 0, some 0, some 0⟩ := by
  unfold frameDescriptors
  rw [if_pos (List.sum_eq_zero h0)]

/-- Every per-frame spectral descriptor is a finite value (`some`): the
zero-energy guard, the guarded degenerate denominators, and the non-zero
divisors everywhere else leave `fdiv` no way to produce NaN. -/
theorem frameDescriptors_isSome (O : AnalyzerOracles) (frame : List ℚ) :
    (frameDescriptors O frame).centroid.isSome = true ∧
    (frameDescriptors O frame).flatness.isSome = true ∧
    (frameDescriptors O frame).slope.isSome = true ∧
    (frameDescriptors O frame).rolloff.isSome = true ∧
    (frameDescriptors O frame).spread.isSome = true ∧
    (frameDescriptors O frame).skewness.isSome = true ∧
    (frameDescriptors O frame).kurtosis.isSome = true := by
  unfold frameDescriptors
  by_cases htot : (O.powerSpectrum frame).sum = 0
  · rw [if_pos htot]
    exact ⟨rfl, rfl, rfl, rfl, rfl, rfl, rfl⟩
  · rw [if_neg htot]
    have hne : O.powerSpectrum frame ≠ [] := by
      intro he
      rw [he] at htot
      exact htot rfl
    have hlen0 : (O.powerSpectrum frame).length ≠ 0 := by
      intro hz
      exact hne (List.eq_nil_of_length_eq_zero hz)
    have hlen : ((O.powerSpectrum frame).length : ℚ) ≠ 0 := Nat.cast_ne_zero.mpr hlen0
    exact ⟨fdiv_isSome _ _ htot, fdiv_isSome _ _ (div_ne_zero htot hlen),
      ite_some_isSome _ _, rfl, rfl, ite_some_isSome _ _, ite_some_isSome _ _⟩

/-- Every frame of an all-zero signal is an all-zero frame. -/
theorem framesOf_silent (n w h : ℕ) (f : List ℚ) (hf : f ∈ framesOf (List.replicate n 0) w h) :
    ∃ k, f = List.replicate k 0 := by
  unfold framesOf at hf
  rcases List.mem_map.mp hf with ⟨i, _, rfl⟩
  refine ⟨min w (n - i * h), ?_⟩
  rw [List.drop_replicate, List.take_replicate]

theorem guard_fdiv_isSome (a t : ℚ) : (if t = 0 then some 0 else fdiv a t).isSome = true := by
  by_cases ht : t = 0
  · rw [if_pos ht]
    rfl
  · rw [if_neg ht]
    exact fdiv_isSome a t ht

/-! ## Claim theorems -/

/-- C1: refuted on the code — the claim asserts that a complete run with N
unfeatured files and no extraction failures inserts exactly N rows for every
batch size B. With N = 3 files and B = 2 the run completes, commits the one
full batch (files 1 and 2, two rows), while the remaining-tasks block runs
the third file's analysis and discards its result without any insert: the
run ends with two persisted rows, one progress event per block, and the
third file's computed result only in `remainingComputed`. -/
theorem run_drops_final_remaining_batch :
    analysis_audio_library [1, 2, 3] [] 2 (fun _ => true) (fun _ => true)
        (fun _ => false) (fun _ => false) =
      .ok 3 ⟨[[1, 2]], [(2, 3), (3, 3)], [3], false⟩ := by decide

/-- C2: refuted on the code — on observing cancellation the consumer does
break without starting a new batch and the in-flight tasks do run to
completion, but their successful results are never committed: with three
files, batch size 3 and the token observed cancelled at the third
consumer-loop check, the two in-flight results are computed
(`remainingComputed = [1, 2]`) yet `committed = []` — no final transaction
exists, the computed work is discarded. -/
theorem cancellation_discards_inflight_results :
    analysis_audio_library [1, 2, 3] [] 3 (fun _ => true) (fun _ => true)
        (fun _ => false) (fun i => decide (2 ≤ i)) =
      .ok 3 ⟨[], [(2, 3)], [1, 2], false⟩ := by decide

/-- C3: the per-file half of the claim holds and the transaction half is
broken in the code. At the first input (three files, batch size 2, file 2's
analysis failing, all transactions committing) the run completes normally
with file 2 merely omitted from the committed batch — a per-file failure is
contained at the task boundary. At the second input (two files, batch
size 1, the first transaction failing) the error does propagate as `Err`
with nothing partially committed. But at the third input (ten files, batch
size 1, the first transaction failing) the source deadlocks — the consumer
exits, `rx` is never dropped, and the producer suspends forever in
`tx.send` on the full channel — so, contrary to the claim (and spec
section 7), the batch-transaction failure never propagates to the caller. -/
theorem commit_failure_containment_and_deadlock :
    analysis_audio_library [1, 2, 3] [] 2 (fun i => decide (i ≠ 2)) (fun _ => true)
        (fun _ => false) (fun _ => false) = .ok 3 ⟨[[1]], [(2, 3), (3, 3)], [3], false⟩ ∧
    analysis_audio_library [1, 2] [] 1 (fun _ => true) (fun j => decide (j ≠ 0))
        (fun _ => false) (fun _ => false) = .err ⟨[], [], [], true⟩ ∧
    analysis_audio_library [1, 2, 3, 4, 5, 6, 7, 8, 9, 10] [] 1 (fun _ => true)
        (fun j => decide (j ≠ 0)) (fun _ => false) (fun _ => false) = .hung := by
  refine ⟨by decide, by decide, by decide⟩

/-- C5: refuted as stated — after a completed, failure-free run on one file
with batch size 3, the file still has no `media_analysis` row (its result was
computed in the remaining-tasks block and dropped), so the second run's
anti-join is `[1]`, not the empty set the claim asserts. -/
theorem second_run_antijoin_nonempty :
    analysis_audio_library [1] [] 3 (fun _ => true) (fun _ => true)
        (fun _ => false) (fun _ => false) = .ok 1 ⟨[], [(1, 1)], [1], false⟩ ∧
    unfeaturedSorted [1]
        ([] ++ (ConsumerOut.committed ⟨[], [(1, 1)], [1], false⟩).flatten) = [1] := by
  constructor
  · decide
  · decide

/-- C5 amended: a second, failure-free run on an unchanged library still
inserts zero rows — but not because the anti-join is empty: the first run
leaves exactly the final sub-batch remainder of the anti-join unpersisted
(empty precisely when the batch size divides the anti-join size), the second
run's anti-join is that remainder, and, being smaller than one batch, it
again commits nothing. -/
theorem second_run_inserts_nothing (fileIds existed : List Int) (B : ℕ)
    (ck ck2 : ℕ → Bool) (hB : 1 ≤ B) (hnd : fileIds.Nodup)
    (hck : ∀ j, ck j = true) (hck2 : ∀ j, ck2 j = true) :
    ∃ out, analysis_audio_library fileIds existed B (fun _ => true) ck
        (fun _ => false) (fun _ => false) = .ok fileIds.length out ∧
      unfeaturedSorted fileIds (existed ++ out.committed.flatten) =
        (unfeaturedSorted fileIds existed).drop
          (B * ((unfeaturedSorted fileIds existed).length / B)) ∧
      ∃ out2, analysis_audio_library fileIds (existed ++ out.committed.flatten) B (fun _ => true)
          ck2 (fun _ => false) (fun _ => false) = .ok fileIds.length out2 ∧
        out2.committed.flatten = [] := by
  obtain ⟨h1, h2, h3, h4, h5⟩ := consumerLoop_ok B fileIds.length (fun _ => true) ck hck hB
    (unfeaturedSorted fileIds existed) [] 0 0 0 (by simpa using hB)
  simp only [List.length_nil, List.nil_append, Nat.zero_add, List.filter_true] at h1 h2 h3 h4 h5
  refine ⟨_, by rw [run_unfold fileIds existed B (fun _ => true) ck (fun _ => false) hB hnd,
    if_neg (by simp [h1])], ?_, ?_⟩
  · rw [h3, unfeaturedSorted_append,
      filter_not_mem_take _ (unfeaturedSorted_nodup fileIds existed hnd)]
  · have hafter : unfeaturedSorted fileIds
        (existed ++ (consumerLoop B fileIds.length (fun _ => true) ck (fun _ => false)
          (unfeaturedSorted fileIds existed) [] 0 0 0).committed.flatten) =
        (unfeaturedSorted fileIds existed).drop
          (B * ((unfeaturedSorted fileIds existed).length / B)) := by
      rw [h3, unfeaturedSorted_append,
        filter_not_mem_take _ (unfeaturedSorted_nodup fileIds existed hnd)]
    have hdm := Nat.div_add_mod (unfeaturedSorted fileIds existed).length B
    have hmod : (unfeaturedSorted fileIds existed).length % B < B :=
      Nat.mod_lt _ (by omega)
    have hshort : (unfeaturedSorted fileIds
        (existed ++ (consumerLoop B fileIds.length (fun _ => true) ck (fun _ => false)
          (unfeaturedSorted fileIds existed) [] 0 0 0).committed.flatten)).length < B := by
      rw [hafter, List.length_drop]
      omega
    obtain ⟨g1, g2, g3, g4, g5⟩ := consumerLoop_ok B fileIds.length (fun _ => true) ck2 hck2 hB
      (unfeaturedSorted fileIds
        (existed ++ (consumerLoop B fileIds.length (fun _ => true) ck (fun _ => false)
          (unfeaturedSorted fileIds existed) [] 0 0 0).committed.flatten)) [] 0 0 0
      (by simpa using hB)
    simp only [List.length_nil, List.nil_append, Nat.zero_add, List.filter_true] at g1 g2 g3 g4 g5
    refine ⟨_, by rw [run_unfold fileIds _ B (fun _ => true) ck2 (fun _ => false) hB hnd,
      if_neg (by simp [g1])], ?_⟩
    rw [g3, Nat.div_eq_of_lt hshort, Nat.mul_zero, List.take_zero]

/-- Closed instance of `second_run_inserts_nothing`: three files, batch size
two — the first run persists `[1, 2]`, the second run's anti-join is `[3]`
and it inserts nothing. -/
theorem second_run_inserts_nothing_witness :
    ∃ out, analysis_audio_library [1, 2, 3] [] 2 (fun _ => true) (fun _ => true)
        (fun _ => false) (fun _ => false) = .ok ([1, 2, 3] : List Int).length out ∧
      unfeaturedSorted [1, 2, 3] ([] ++ out.committed.flatten) =
        (unfeaturedSorted [1, 2, 3] []).drop
          (2 * ((unfeaturedSorted [1, 2, 3] []).length / 2)) ∧
      ∃ out2, analysis_audio_library [1, 2, 3] ([] ++ out.committed.flatten) 2 (fun _ => true)
          (fun _ => true) (fun _ => false) (fun _ => false) = .ok ([1, 2, 3] : List Int).length out2 ∧
        out2.committed.flatten = [] :=
  second_run_inserts_nothing [1, 2, 3] [] 2 (fun _ => true) (fun _ => true) (by omega)
    (by decide) (fun _ => rfl) (fun _ => rfl)

/-- C7: refuted as stated — the callback is not invoked only after batch
commits: on one file with batch size 2 the completed run commits no
transaction at all, yet the callback fires once (from the remaining-tasks
block, reporting the file as processed). -/
theorem progress_event_without_commit :
    analysis_audio_library [1] [] 2 (fun _ => true) (fun _ => true)
        (fun _ => false) (fun _ => false) = .ok 1 ⟨[], [(1, 1)], [1], false⟩ := by decide

/-- C7 amended: in a completed uncancelled run the callback fires once after
each batch commit with (files processed so far, snapshot of the full
`media_files` count), and additionally exactly once more — with the same
argument shape but no accompanying commit — when a final sub-batch remainder
exists. -/
theorem progress_once_per_commit_plus_remainder (fileIds existed : List Int) (B : ℕ)
    (ok : Int → Bool) (ck : ℕ → Bool) (hB : 1 ≤ B) (hnd : fileIds.Nodup)
    (hck : ∀ j, ck j = true) :
    ∃ out, analysis_audio_library fileIds existed B ok ck (fun _ => false) (fun _ => false) =
        .ok fileIds.length out ∧
      out.progressEvents =
        (List.range ((unfeaturedSorted fileIds existed).length / B)).map
            (fun j => (B * (j + 1), fileIds.length)) ++
          (if B * ((unfeaturedSorted fileIds existed).length / B) <
              (unfeaturedSorted fileIds existed).length then
            [((unfeaturedSorted fileIds existed).length, fileIds.length)]
          else []) ∧
      out.progressEvents.length =
        out.committed.length +
          (if B * ((unfeaturedSorted fileIds existed).length / B) <
              (unfeaturedSorted fileIds existed).length then 1 else 0) := by
  obtain ⟨h1, h2, h3, h4, h5⟩ := consumerLoop_ok B fileIds.length ok ck hck hB
    (unfeaturedSorted fileIds existed) [] 0 0 0 (by simpa using hB)
  simp only [List.length_nil, List.nil_append, Nat.zero_add] at h1 h2 h3 h4 h5
  refine ⟨_, by rw [run_unfold fileIds existed B ok ck (fun _ => false) hB hnd,
    if_neg (by simp [h1])], by rw [h5], ?_⟩
  rw [h5, h2]
  by_cases hc : B * ((unfeaturedSorted fileIds existed).length / B) <
      (unfeaturedSorted fileIds existed).length
  · rw [if_pos hc, if_pos hc]
    simp
  · rw [if_neg hc, if_neg hc]
    simp

/-- Closed instance of `progress_once_per_commit_plus_remainder`: three files,
batch size two — one commit event `(2, 3)` plus one remainder event
`(3, 3)`. -/
theorem progress_once_per_commit_witness :
    ∃ out, analysis_audio_library [1, 2, 3] [] 2 (fun _ => true) (fun _ => true)
        (fun _ => false) (fun _ => false) = .ok ([1, 2, 3] : List Int).length out ∧
      out.progressEvents =
        (List.range ((unfeaturedSorted [1, 2, 3] []).length / 2)).map
            (fun j => (2 * (j + 1), ([1, 2, 3] : List Int).length)) ++
          (if 2 * ((unfeaturedSorted [1, 2, 3] []).length / 2) <
              (unfeaturedSorted [1, 2, 3] []).length then
            [((unfeaturedSorted [1, 2, 3] []).length, ([1, 2, 3] : List Int).length)]
          else []) ∧
      out.progressEvents.length =
        out.committed.length +
          (if 2 * ((unfeaturedSorted [1, 2, 3] []).length / 2) <
              (unfeaturedSorted [1, 2, 3] []).length then 1 else 0) :=
  progress_once_per_commit_plus_remainder [1, 2, 3] [] 2 (fun _ => true) (fun _ => true)
    (by omega) (by decide) (fun _ => rfl)

/-- C4: within one run (no cancellation), the producer's keyset-paginating
cursor emits exactly the anti-join — the files with no `media_analysis`
row — in strictly ascending file-id order, so no identifier is ever fetched
twice. The fuel is the one the run itself supplies. -/
theorem producer_antijoin_keyset_pagination (fileIds existed : List Int) (B : ℕ)
    (hB : 1 ≤ B) (hnd : fileIds.Nodup) :
    (producerLoop fileIds existed B (fun _ => false) (fileIds.length + 1) none 0).flatten =
        unfeaturedSorted fileIds existed ∧
    (producerLoop fileIds existed B (fun _ => false) (fileIds.length + 1) none 0).flatten.Pairwise
        (· < ·) ∧
    ∀ i : Int,
      i ∈ (producerLoop fileIds existed B (fun _ => false) (fileIds.length + 1) none 0).flatten ↔
        i ∈ fileIds ∧ i ∉ existed := by
  have hmain := producer_flatten_top fileIds existed B hB hnd
  refine ⟨hmain, ?_, fun i => ?_⟩
  · rw [hmain]; exact unfeaturedSorted_strict fileIds existed hnd
  · rw [hmain]; exact unfeaturedSorted_mem fileIds existed i

/-- Closed instance of `producer_antijoin_keyset_pagination`: three files in
scrambled id order with one already analysed give the pages `[1], [3]` —
flattened `[1, 3]`, strictly ascending, exactly the anti-join. -/
theorem producer_antijoin_keyset_pagination_witness :
    (producerLoop [3, 1, 2] [2] 1 (fun _ => false) 4 none 0).flatten =
        unfeaturedSorted [3, 1, 2] [2] ∧
    (producerLoop [3, 1, 2] [2] 1 (fun _ => false) 4 none 0).flatten.Pairwise (· < ·) ∧
    ∀ i : Int, i ∈ (producerLoop [3, 1, 2] [2] 1 (fun _ => false) 4 none 0).flatten ↔
      i ∈ ([3, 1, 2] : List Int) ∧ i ∉ ([2] : List Int) :=
  producer_antijoin_keyset_pagination [3, 1, 2] [2] 1 (by omega) (by decide)

/-- C6: `get_centralized_analysis_result` aggregates each scalar field and
each array position independently as the arithmetic mean of the non-null
values among the loaded rows, with `0` for an axis to which no row
contributes; in particular a row with `rms = 2.0` averaged with a row whose
`rms` is NULL yields `2.0` (the denominator counts only the non-null
contributions), not `1.0`. -/
theorem centralized_is_per_axis_nonnull_mean :
    (∀ rows : List MediaAnalysisRow,
      (centralizedOf rows).rms = meanOpt (rows.map (fun r => r.rms)) ∧
      (centralizedOf rows).zcr = meanOpt (rows.map (fun r => r.zcr)) ∧
      (centralizedOf rows).energy = meanOpt (rows.map (fun r => r.energy)) ∧
      (centralizedOf rows).spectral_centroid =
        meanOpt (rows.map (fun r => r.spectral_centroid)) ∧
      (centralizedOf rows).spectral_flatness =
        meanOpt (rows.map (fun r => r.spectral_flatness)) ∧
      (centralizedOf rows).spectral_slope = meanOpt (rows.map (fun r => r.spectral_slope)) ∧
      (centralizedOf rows).spectral_rolloff =
        meanOpt (rows.map (fun r => r.spectral_rolloff)) ∧
      (centralizedOf rows).spectral_spread = meanOpt (rows.map (fun r => r.spectral_spread)) ∧
      (centralizedOf rows).spectral_skewness =
        meanOpt (rows.map (fun r => r.spectral_skewness)) ∧
      (centralizedOf rows).spectral_kurtosis =
        meanOpt (rows.map (fun r => r.spectral_kurtosis)) ∧
      (centralizedOf rows).perceptual_spread =
        meanOpt (rows.map (fun r => r.perceptual_spread)) ∧
      (centralizedOf rows).perceptual_sharpness =
        meanOpt (rows.map (fun r => r.perceptual_sharpness)) ∧
      (∀ i, (centralizedOf rows).chroma i = meanOpt (rows.map (fun r => r.chroma i))) ∧
      (∀ i, (centralizedOf rows).perceptual_loudness i =
        meanOpt (rows.map (fun r => r.perceptual_loudness i))) ∧
      (∀ i, (centralizedOf rows).mfcc i = meanOpt (rows.map (fun r => r.mfcc i)))) ∧
    (centralizedOf [{ blankRow with rms := some 2 }, blankRow]).rms = 2 := by
  refine ⟨fun rows => ?_,
    (centralized_axis (fun r => r.rms) (fun a => a.rms) (fun acc r => rfl) rfl
      [{ blankRow with rms := some 2 }, blankRow]).trans
      (by show meanOpt [some 2, none] = 2; simp [meanOpt])⟩
  refine ⟨centralized_axis _ (fun a => a.rms) (fun acc r => rfl) rfl rows,
    centralized_axis _ (fun a => a.zcr) (fun acc r => rfl) rfl rows,
    centralized_axis _ (fun a => a.energy) (fun acc r => rfl) rfl rows,
    centralized_axis _ (fun a => a.spectral_centroid) (fun acc r => rfl) rfl rows,
    centralized_axis _ (fun a => a.spectral_flatness) (fun acc r => rfl) rfl rows,
    centralized_axis _ (fun a => a.spectral_slope) (fun acc r => rfl) rfl rows,
    centralized_axis _ (fun a => a.spectral_rolloff) (fun acc r => rfl) rfl rows,
    centralized_axis _ (fun a => a.spectral_spread) (fun acc r => rfl) rfl rows,
    centralized_axis _ (fun a => a.spectral_skewness) (fun acc r => rfl) rfl rows,
    centralized_axis _ (fun a => a.spectral_kurtosis) (fun acc r => rfl) rfl rows,
    centralized_axis _ (fun a => a.perceptual_spread) (fun acc r => rfl) rfl rows,
    centralized_axis _ (fun a => a.perceptual_sharpness) (fun acc r => rfl) rfl rows,
    fun i => centralized_axis _ (fun a => a.chroma i) (fun acc r => rfl) rfl rows,
    fun i => centralized_axis _ (fun a => a.perceptual_loudness i) (fun acc r => rfl) rfl rows,
    fun i => centralized_axis _ (fun a => a.mfcc i) (fun acc r => rfl) rfl rows⟩

/-- C8: on an all-zero (silent) signal the analyzer yields `rms = 0`,
`zcr = 0`, `energy = 0` and every spectral descriptor `0` (never NaN), for
every window, hop and signal length; and on every signal whatsoever each
`Option`-valued scalar (the ones a floating-point division could poison) is
finite (`isSome`). The array descriptors and the time-domain scalars of the
model are total rational computations, finite by construction. The oracle
hypotheses are what the spec guarantees of the abstracted transcendental
chain: the windowed-transform power spectrum of an all-zero frame is all
zero, and the square root of zero is zero. -/
theorem analyzer_silence_zero_and_finite (O : AnalyzerOracles) (w h n : ℕ)
    (hps0 : ∀ m : ℕ, ∀ x ∈ O.powerSpectrum (List.replicate m 0), x = 0)
    (hsq0 : O.sqrtQ 0 = 0) :
    ((analyzeSignal O (List.replicate n 0) w h).rms = 0 ∧
      (analyzeSignal O (List.replicate n 0) w h).zcr = 0 ∧
      (analyzeSignal O (List.replicate n 0) w h).energy = 0 ∧
      (analyzeSignal O (List.replicate n 0) w h).spectral_centroid = some 0 ∧
      (analyzeSignal O (List.replicate n 0) w h).spectral_flatness = some 0 ∧
      (analyzeSignal O (List.replicate n 0) w h).spectral_slope = some 0 ∧
      (analyzeSignal O (List.replicate n 0) w h).spectral_rolloff = some 0 ∧
      (analyzeSignal O (List.replicate n 0) w h).spectral_spread = some 0 ∧
      (analyzeSignal O (List.replicate n 0) w h).spectral_skewness = some 0 ∧
      (analyzeSignal O (List.replicate n 0) w h).spectral_kurtosis = some 0) ∧
    (∀ sig : List ℚ,
      (analyzeSignal O sig w h).spectral_centroid.isSome = true ∧
      (analyzeSignal O sig w h).spectral_flatness.isSome = true ∧
      (analyzeSignal O sig w h).spectral_slope.isSome = true ∧
      (analyzeSignal O sig w h).spectral_rolloff.isSome = true ∧
      (analyzeSignal O sig w h).spectral_spread.isSome = true ∧
      (analyzeSignal O sig w h).spectral_skewness.isSome = true ∧
      (analyzeSignal O sig w h).spectral_kurtosis.isSome = true ∧
      (analyzeSignal O sig w h).perceptual_spread.isSome = true ∧
      (analyzeSignal O sig w h).perceptual_sharpness.isSome = true) := by
  constructor
  · have hmq : meanQ ((List.replicate n (0 : ℚ)).map (fun x => x ^ 2)) = 0 := by
      refine meanQ_all_zero _ (fun x hx => ?_)
      rcases List.mem_map.mp hx with ⟨a, ha, rfl⟩
      rw [List.eq_of_mem_replicate ha]
      norm_num
    have hdall : ∀ d ∈ (framesOf (List.replicate n 0) w h).map (frameDescriptors O),
        d = ⟨some 0, some 0, some 0, some 0, some 0, some 0, some 0⟩ := by
      intro d hd
      rcases List.mem_map.mp hd with ⟨f, hf, rfl⟩
      rcases framesOf_silent n w h f hf with ⟨k, rfl⟩
      exact frameDescriptors_silent O _ (hps0 k)
    have hfield : ∀ g : FrameDescriptors → Option ℚ,
        g ⟨some 0, some 0, some 0, some 0, some 0, some 0, some 0⟩ = some 0 →
        optMean (((framesOf (List.replicate n 0) w h).map (frameDescriptors O)).map g) =
          some 0 := by
      intro g hg
      refine optMean_all_some_zero _ (fun x hx => ?_)
      rcases List.mem_map.mp hx with ⟨d, hd, rfl⟩
      rw [hdall d hd, hg]
    simp only [analyzeSignal]
    refine ⟨?_, ?_, hmq, hfield _ rfl, hfield _ rfl, hfield _ rfl, hfield _ rfl,
      hfield _ rfl, hfield _ rfl, hfield _ rfl⟩
    · rw [hmq, hsq0]
    · by_cases hn : (List.replicate n (0 : ℚ)).length = 0
      · rw [if_pos hn]
      · rw [if_neg hn]
        have hfil : ((List.replicate n (0 : ℚ)).zip (List.replicate n (0 : ℚ)).tail).filter
            (fun ab => decide (ab.1 * ab.2 < 0)) = [] := by
          rw [List.filter_eq_nil_iff]
          rintro ⟨a, b⟩ hab
          have ha := (List.of_mem_zip hab).1
          rw [List.eq_of_mem_replicate ha]
          simp
        rw [hfil]
        simp
  · intro sig
    have hds : ∀ g : FrameDescriptors → Option ℚ,
        (∀ fr : List ℚ, (g (frameDescriptors O fr)).isSome = true) →
        (optMean (((framesOf sig w h).map (frameDescriptors O)).map g)).isSome = true := by
      intro g hg
      refine optMean_isSome _ (fun x hx => ?_)
      rcases List.mem_map.mp hx with ⟨d, hd, rfl⟩
      rcases List.mem_map.mp hd with ⟨fr, _, rfl⟩
      exact hg fr
    simp only [analyzeSignal]
    exact ⟨hds _ (fun fr => (frameDescriptors_isSome O fr).1),
      hds _ (fun fr => (frameDescriptors_isSome O fr).2.1),
      hds _ (fun fr => (frameDescriptors_isSome O fr).2.2.1),
      hds _ (fun fr => (frameDescriptors_isSome O fr).2.2.2.1),
      hds _ (fun fr => (frameDescriptors_isSome O fr).2.2.2.2.1),
      hds _ (fun fr => (frameDescriptors_isSome O fr).2.2.2.2.2.1),
      hds _ (fun fr => (frameDescriptors_isSome O fr).2.2.2.2.2.2),
      guard_fdiv_isSome _ _, guard_fdiv_isSome _ _⟩

/-- Closed instance of `analyzer_silence_zero_and_finite` at the concrete
sample oracles, window 2, hop 1, a three-sample silent signal. -/
theorem analyzer_silence_zero_and_finite_witness :
    ((analyzeSignal sampleOracles (List.replicate 3 0) 2 1).rms = 0 ∧
      (analyzeSignal sampleOracles (List.replicate 3 0) 2 1).zcr = 0 ∧
      (analyzeSignal sampleOracles (List.replicate 3 0) 2 1).energy = 0 ∧
      (analyzeSignal sampleOracles (List.replicate 3 0) 2 1).spectral_centroid = some 0 ∧
      (analyzeSignal sampleOracles (List.replicate 3 0) 2 1).spectral_flatness = some 0 ∧
      (analyzeSignal sampleOracles (List.replicate 3 0) 2 1).spectral_slope = some 0 ∧
      (analyzeSignal sampleOracles (List.replicate 3 0) 2 1).spectral_rolloff = some 0 ∧
      (analyzeSignal sampleOracles (List.replicate 3 0) 2 1).spectral_spread = some 0 ∧
      (analyzeSignal sampleOracles (List.replicate 3 0) 2 1).spectral_skewness = some 0 ∧
      (analyzeSignal sampleOracles (List.replicate 3 0) 2 1).spectral_kurtosis = some 0) ∧
    (∀ sig : List ℚ,
      (analyzeSignal sampleOracles sig 2 1).spectral_centroid.isSome = true ∧
      (analyzeSignal sampleOracles sig 2 1).spectral_flatness.isSome = true ∧
      (analyzeSignal sampleOracles sig 2 1).spectral_slope.isSome = true ∧
      (analyzeSignal sampleOracles sig 2 1).spectral_rolloff.isSome = true ∧
      (analyzeSignal sampleOracles sig 2 1).spectral_spread.isSome = true ∧
      (analyzeSignal sampleOracles sig 2 1).spectral_skewness.isSome = true ∧
      (analyzeSignal sampleOracles sig 2 1).spectral_kurtosis.isSome = true ∧
      (analyzeSignal sampleOracles sig 2 1).perceptual_spread.isSome = true ∧
      (analyzeSignal sampleOracles sig 2 1).perceptual_sharpness.isSome = true) :=
  analyzer_silence_zero_and_finite sampleOracles 2 1 3
    (fun m x hx => by
      rcases List.mem_append.mp hx with hx1 | hx2
      · rcases List.mem_map.mp hx1 with ⟨a, ha, rfl⟩
        rw [List.eq_of_mem_replicate ha]
        norm_num
      · simp only [List.mem_cons, List.mem_singleton] at hx2
        rcases hx2 with rfl | hx3
        · rfl
        · simpa using hx3)
    rfl

/-- C9: `analysis_audio_library` with `batch_size = 0` aborts the process
(`async_channel::bounded` at line 68 is documented to abort on a capacity of
zero) instead of returning an error value, and for every positive batch size
the run never aborts: the contract is total exactly for `batch_size ≥ 1`. -/
theorem analysis_zero_batch_size_aborts :
    (∀ (fileIds existed : List Int) (ok : Int → Bool) (commitOk pcancel ccancel : ℕ → Bool),
      analysis_audio_library fileIds existed 0 ok commitOk pcancel ccancel = .panicked) ∧
    (∀ (fileIds existed : List Int) (B : ℕ) (ok : Int → Bool) (commitOk pcancel ccancel : ℕ → Bool),
      1 ≤ B →
        analysis_audio_library fileIds existed B ok commitOk pcancel ccancel ≠ .panicked) := by
  constructor
  · intro fileIds existed ok ck pc cc
    simp [analysis_audio_library]
  · intro fileIds existed B ok ck pc cc hB
    simp only [analysis_audio_library]
    rw [if_neg (by omega)]
    split
    · split <;> simp
    · simp

/-- Closed instance of `analysis_zero_batch_size_aborts`: the run on one file
aborts at batch size 0 and returns normally at batch size 2. -/
theorem analysis_zero_batch_size_aborts_witness :
    analysis_audio_library [1] [] 0 (fun _ => true) (fun _ => true)
        (fun _ => false) (fun _ => false) = .panicked ∧
    analysis_audio_library [1] [] 2 (fun _ => true) (fun _ => true)
        (fun _ => false) (fun _ => false) ≠ .panicked :=
  ⟨analysis_zero_batch_size_aborts.1 [1] [] (fun _ => true) (fun _ => true)
      (fun _ => false) (fun _ => false),
    analysis_zero_batch_size_aborts.2 [1] [] 2 (fun _ => true) (fun _ => true)
      (fun _ => false) (fun _ => false) (by omega)⟩

/-- C10: `get_centralized_analysis_result` has no error path — a failed
query aborts the process (the `.unwrap()` of line 441) and a successful
query always yields the aggregate of the loaded rows; its result is an
abort exactly when the query failed. -/
theorem centralized_panics_on_query_error :
    (∀ e : DbErr, get_centralized_analysis_result (.error e) = .panicked) ∧
    (∀ rows, get_centralized_analysis_result (.ok rows) = .value (centralizedOf rows)) ∧
    (∀ q, get_centralized_analysis_result q = .panicked ↔ ∃ e, q = .error e) := by
  refine ⟨fun e => rfl, fun rows => rfl, fun q => ?_⟩
  cases q with
  | error e => simp [get_centralized_analysis_result]
  | ok rows => simp [get_centralized_analysis_result]

end Rune
